import Mathlib

/-!
Verification of the retrieval core of the cloud-ai-service repository
(`app/inference.py`): the similarity index (`FAISSIndex`), the retrieval
pipeline (`RAGPipeline`), and the answer synthesizer (`generate_answer`).

Embedding conventions:
* Python floats are modelled as exact rationals (`ℚ`); vectors are `List ℚ`.
* The code stores embeddings after `faiss.normalize_L2` and searches with an
  inner-product index, which (per the interface of the external faiss
  collaborator) computes exact cosine similarities.  The model stores the raw
  vectors and computes the cosine similarity at search time; the two are the
  same number, `dot u v / (sqrt (dot u u) * sqrt (dot v v))`.  To keep every
  definition executable, a similarity score is represented exactly as a pair
  `(num, rad)` standing for the real number `num / sqrt rad`, and the
  comparison `qle` on such pairs is proved to agree with the real-number
  order (`qle_iff`).
* Exceptions are modelled with `Except`; a Python method that mutates `self`
  becomes a function returning the new state.
-/

/-- Inner product of two rational vectors (`np.dot` on the common length). -/
def dot : List ℚ → List ℚ → ℚ
  | a :: as, b :: bs => a * b + dot as bs
  | _, _ => 0

/-- Squared L2 norm of a vector. -/
def normSq (v : List ℚ) : ℚ := dot v v

/-- Decides `a / sqrt b ≤ c / sqrt d` for rationals with `0 < b`, `0 < d`,
using only rational arithmetic (see `qle_iff` for the soundness proof). -/
def qle (a b c d : ℚ) : Bool :=
  if a ≤ 0 then (decide (0 ≤ c) || decide (c ^ 2 * b ≤ a ^ 2 * d))
  else (decide (0 ≤ c) && decide (a ^ 2 * d ≤ c ^ 2 * b))

/-- An exact representation of a cosine-similarity score: the real number
`num / sqrt rad` with `0 < rad`.  The code's float score
`dot(q_normalized, v_normalized)` is this number for `num = dot q v` and
`rad = normSq q * normSq v`. -/
structure Score where
  num : ℚ
  rad : ℚ
  rad_pos : 0 < rad

/-- Order on scores: `s ≤ t` as real numbers (decidable, exact). -/
def scoreLe (s t : Score) : Bool := qle s.num s.rad t.num t.rad

/-- The cosine-similarity score of query `q` against stored vector `v`:
exactly what the code's normalize-then-inner-product computes.  When one of
the vectors is zero the code's normalization is degenerate; the model assigns
score 0 in that case. -/
def cosSim (q v : List ℚ) : Score :=
  if h : 0 < normSq q * normSq v then ⟨dot q v, normSq q * normSq v, h⟩
  else ⟨0, 1, one_pos⟩

/-- Ranking used by the top-k search: higher score first, ties broken by the
smaller insertion index (the determinism contract of the similarity search). -/
def rank (x y : Nat × Score) : Bool :=
  scoreLe y.2 x.2 && (!scoreLe x.2 y.2 || decide (x.1 ≤ y.1))

/-- `cosOne u w` says the cosine similarity of `u` and `w` is exactly 1,
i.e. the vectors point in the same direction. -/
def cosOne (u w : List ℚ) : Prop :=
  0 < dot u w ∧ (dot u w) ^ 2 = normSq u * normSq w

instance (u w : List ℚ) : Decidable (cosOne u w) :=
  inferInstanceAs (Decidable (_ ∧ _))

/-- Error taxonomy of the service (the code raises builtin Python exceptions
playing these roles). -/
inductive PipelineError where
  | dimensionMismatch
deriving DecidableEq

/-- State of `FAISSIndex`: the parallel document / vector stores.
`vectors` holds the raw embeddings; `idx.vectors.length` is the code's
`index.ntotal`. -/
structure FAISSIndex where
  dimension : Nat
  documents : List String
  vectors : List (List ℚ)
deriving DecidableEq

/-- `FAISSIndex.__init__`: empty stores. -/
def FAISSIndex.init (dimension : Nat) : FAISSIndex :=
  ⟨dimension, [], []⟩

/-- `FAISSIndex.add_documents`: requires equal counts (else
`ValueError`, the spec's `DimensionMismatchError`), then appends both the
documents and the (normalized, here: raw) embeddings. -/
def FAISSIndex.add_documents (idx : FAISSIndex) (documents : List String)
    (embeddings : List (List ℚ)) : Except PipelineError FAISSIndex :=
  if documents.length ≠ embeddings.length then
    Except.error PipelineError.dimensionMismatch
  else
    Except.ok { idx with
      documents := idx.documents ++ documents,
      vectors := idx.vectors ++ embeddings }

/-- The scored candidates of a search: each stored vector, paired with its
insertion index and its cosine similarity to the query. -/
def scoredList (idx : FAISSIndex) (q : List ℚ) : List (Nat × Score) :=
  (List.range idx.vectors.length).map (fun i => (i, cosSim q (idx.vectors.getD i [])))

/-- Insert a candidate into a list sorted by `rank` (used by the exact top-k
selection of the similarity search). -/
def insertRanked (x : Nat × Score) : List (Nat × Score) → List (Nat × Score)
  | [] => [x]
  | y :: ys => if rank y x then y :: insertRanked x ys else x :: y :: ys

/-- Sort candidates by `rank`: descending score, ties by insertion index. -/
def sortRanked : List (Nat × Score) → List (Nat × Score)
  | [] => []
  | x :: xs => insertRanked x (sortRanked xs)

/-- The ranked `(index, score)` results of `FAISSIndex.search`: all candidates
sorted by descending score (ties: insertion order), truncated to
`min k ntotal` — the `indices`/`scores` rows the faiss call returns. -/
def searchRanked (idx : FAISSIndex) (q : List ℚ) (k : Nat) : List (Nat × Score) :=
  (sortRanked (scoredList idx q)).take (min k idx.vectors.length)

/-- `FAISSIndex.search`: empty result on an empty index, otherwise the
top-`min k ntotal` documents with their scores. -/
def FAISSIndex.search (idx : FAISSIndex) (q : List ℚ) (k : Nat) :
    List String × List Score :=
  if idx.vectors.length = 0 then ([], [])
  else ((searchRanked idx q k).map (fun p => idx.documents.getD p.1 ""),
        (searchRanked idx q k).map (fun p => p.2))

/-- States of `FAISSIndex` reachable by its public operations: freshly
constructed, or the successful result of an `add_documents` call. -/
inductive Reachable : FAISSIndex → Prop where
  | init : ∀ d, Reachable (FAISSIndex.init d)
  | add : ∀ idx docs embs idx', Reachable idx →
      FAISSIndex.add_documents idx docs embs = Except.ok idx' → Reachable idx'

/-- State of `RAGPipeline`: the encoder (an opaque deterministic function,
the external embedding model), the index, and the `_is_indexed` flag. -/
structure RAGPipeline where
  encode : String → List ℚ
  index : FAISSIndex
  is_indexed : Bool

/-- `RAGPipeline.__init__`: fresh index of the encoder's dimension, flag down. -/
def RAGPipeline.init (encode : String → List ℚ) (dimension : Nat) : RAGPipeline :=
  ⟨encode, FAISSIndex.init dimension, false⟩

/-- `RAGPipeline.index_documents`: batch-encode, insert into the index, then
set `_is_indexed = True`. -/
def RAGPipeline.index_documents (p : RAGPipeline) (documents : List String) :
    Except PipelineError RAGPipeline :=
  match p.index.add_documents documents (documents.map p.encode) with
  | Except.error e => Except.error e
  | Except.ok idx => Except.ok { p with index := idx, is_indexed := true }

/-- `RAGPipeline.retrieve`: empty result before indexing, otherwise encode the
query and search. -/
def RAGPipeline.retrieve (p : RAGPipeline) (query : String) (k : Nat) :
    List String × List Score :=
  if p.is_indexed = false then ([], [])
  else p.index.search (p.encode query) k

/-- The confidence label computed inside `RAGPipeline.generate_answer` from
the top similarity score. -/
def confidence (top_score : ℚ) : String :=
  if top_score > 7/10 then "high confidence"
  else if top_score > 1/2 then "moderate confidence"
  else "low confidence"

/-- Python's `s[:n]`: the first `n` characters (code points) of a string. -/
def strTake (s : String) (n : Nat) : String :=
  String.mk (s.data.take n)

/-- The optional "Related info" tail of an answer: present only when a second
document exists, holding its first 200 characters. -/
def relatedInfo : List String → String
  | [] => ""
  | d1 :: _ => "\n\nRelated info:\n" ++ strTake d1 200

/-- `RAGPipeline.generate_answer` (the method reads none of the pipeline
state, so it is modelled as a plain function).  `none` models the
`IndexError` the code raises when `retrieved_docs` is non-empty but
`similarity_scores` is empty (`similarity_scores[0]`). -/
def RAGPipeline.generate_answer (query : String) (retrieved_docs : List String)
    (similarity_scores : List ℚ) : Option String :=
  match retrieved_docs with
  | [] => some "No relevant information found."
  | d0 :: rest =>
    match similarity_scores with
    | [] => none
    | s0 :: _ =>
      some ("Based on retrieved data (" ++ confidence s0 ++ "):\n" ++ d0 ++
        relatedInfo rest)

/-- `RAGPipeline.is_ready`: flag up and at least one stored vector. -/
def RAGPipeline.is_ready (p : RAGPipeline) : Bool :=
  p.is_indexed && decide (0 < p.index.vectors.length)

/-! ## Basic facts about the rational inner product -/

theorem dot_self_nonneg (v : List ℚ) : 0 ≤ dot v v := by
  induction v with
  | nil => simp [dot]
  | cons a as ih => simp only [dot]; nlinarith [sq_nonneg a]

theorem cs_step (a b A B D : ℚ) (hA : 0 ≤ A) (hB : 0 ≤ B) (h : D ^ 2 ≤ A * B) :
    (a * b + D) ^ 2 ≤ (a * a + A) * (b * b + B) := by
  rcases eq_or_lt_of_le hA with hA0 | hApos
  · have hD : D = 0 := by nlinarith [sq_nonneg D]
    subst hD
    nlinarith [mul_nonneg (sq_nonneg a) hB, sq_nonneg (a * b)]
  · have key : A * ((a * b + D) ^ 2) ≤ A * ((a * a + A) * (b * b + B)) := by
      nlinarith [sq_nonneg (a * D - b * A), mul_nonneg (sq_nonneg a) (sub_nonneg.mpr h),
        mul_nonneg (le_of_lt hApos) (sub_nonneg.mpr h)]
    exact le_of_mul_le_mul_left key hApos

/-- Cauchy–Schwarz for the list inner product. -/
theorem dot_sq_le (u v : List ℚ) : (dot u v) ^ 2 ≤ normSq u * normSq v := by
  induction u generalizing v with
  | nil => simp [dot, normSq]
  | cons a as ih =>
    cases v with
    | nil =>
      have h1 : dot (a :: as) [] = 0 := rfl
      have h2 : normSq ([] : List ℚ) = 0 := rfl
      rw [h1, h2]
      norm_num
    | cons b bs =>
      simp only [dot, normSq]
      exact cs_step a b (dot as as) (dot bs bs) (dot as bs)
        (dot_self_nonneg as) (dot_self_nonneg bs) (ih bs)

/-! ## Soundness of the exact score comparison -/

/-- `qle a b c d` decides exactly `a / sqrt b ≤ c / sqrt d` over the reals. -/
theorem qle_iff (a b c d : ℚ) (hb : 0 < b) (hd : 0 < d) :
    qle a b c d = true ↔ (a : ℝ) / Real.sqrt (b : ℝ) ≤ (c : ℝ) / Real.sqrt (d : ℝ) := by
  have hbR : (0:ℝ) < (b:ℝ) := by exact_mod_cast hb
  have hdR : (0:ℝ) < (d:ℝ) := by exact_mod_cast hd
  have hsb : (0:ℝ) < Real.sqrt (b:ℝ) := Real.sqrt_pos.mpr hbR
  have hsd : (0:ℝ) < Real.sqrt (d:ℝ) := Real.sqrt_pos.mpr hdR
  have hb2 : Real.sqrt (b:ℝ) ^ 2 = (b:ℝ) := Real.sq_sqrt hbR.le
  have hd2 : Real.sqrt (d:ℝ) ^ 2 = (d:ℝ) := Real.sq_sqrt hdR.le
  rw [div_le_div_iff₀ hsb hsd]
  set sb := Real.sqrt (b:ℝ)
  set sd := Real.sqrt (d:ℝ)
  have hXsq : ((a:ℝ) * sd) ^ 2 = (a:ℝ) ^ 2 * (d:ℝ) := by rw [mul_pow, hd2]
  have hYsq : ((c:ℝ) * sb) ^ 2 = (c:ℝ) ^ 2 * (b:ℝ) := by rw [mul_pow, hb2]
  unfold qle
  by_cases ha : a ≤ 0
  · have haR : (a:ℝ) ≤ 0 := by exact_mod_cast ha
    have hX : (a:ℝ) * sd ≤ 0 := mul_nonpos_iff.mpr (Or.inr ⟨haR, hsd.le⟩)
    simp only [ha, if_pos, Bool.or_eq_true, decide_eq_true_eq]
    by_cases hc : (0:ℚ) ≤ c
    · have hcR : (0:ℝ) ≤ (c:ℝ) := by exact_mod_cast hc
      have hY : (0:ℝ) ≤ (c:ℝ) * sb := mul_nonneg hcR hsb.le
      exact ⟨fun _ => le_trans hX hY, fun _ => Or.inl hc⟩
    · push_neg at hc
      have hcR : (c:ℝ) < 0 := by exact_mod_cast hc
      have hY : (c:ℝ) * sb ≤ 0 := (mul_neg_of_neg_of_pos hcR hsb).le
      have hiff : ((c:ℝ) ^ 2 * (b:ℝ) ≤ (a:ℝ) ^ 2 * (d:ℝ)) ↔ ((a:ℝ) * sd ≤ (c:ℝ) * sb) := by
        rw [← hXsq, ← hYsq, sq_le_sq, abs_of_nonpos hX, abs_of_nonpos hY, neg_le_neg_iff]
      constructor
      · rintro (h0 | hsq)
        · exact absurd h0 (not_le.mpr hc)
        · exact hiff.mp (by exact_mod_cast hsq)
      · intro hle
        exact Or.inr (by exact_mod_cast hiff.mpr hle)
  · push_neg at ha
    have haR : (0:ℝ) < (a:ℝ) := by exact_mod_cast ha
    have hX : 0 < (a:ℝ) * sd := mul_pos haR hsd
    simp only [not_le.mpr ha, if_neg, if_false, Bool.and_eq_true, decide_eq_true_eq]
    by_cases hc : (0:ℚ) ≤ c
    · have hcR : (0:ℝ) ≤ (c:ℝ) := by exact_mod_cast hc
      have hY : (0:ℝ) ≤ (c:ℝ) * sb := mul_nonneg hcR hsb.le
      have hiff : ((a:ℝ) ^ 2 * (d:ℝ) ≤ (c:ℝ) ^ 2 * (b:ℝ)) ↔ ((a:ℝ) * sd ≤ (c:ℝ) * sb) := by
        rw [← hXsq, ← hYsq, sq_le_sq, abs_of_nonneg hX.le, abs_of_nonneg hY]
      constructor
      · rintro ⟨-, hsq⟩
        exact hiff.mp (by exact_mod_cast hsq)
      · intro hle
        exact ⟨hc, by exact_mod_cast hiff.mpr hle⟩
    · push_neg at hc
      have hcR : (c:ℝ) < 0 := by exact_mod_cast hc
      have hY : (c:ℝ) * sb < 0 := mul_neg_of_neg_of_pos hcR hsb
      constructor
      · rintro ⟨h0, -⟩
        exact absurd h0 (not_le.mpr hc)
      · intro hle
        exact absurd hle (not_le.mpr (lt_trans hY hX))

/-- The real number a score stands for, spelled out: `scoreLe` agrees with the
real-number order on `num / sqrt rad`. -/
theorem scoreLe_iff (s t : Score) :
    scoreLe s t = true ↔
      (s.num : ℝ) / Real.sqrt (s.rad : ℝ) ≤ (t.num : ℝ) / Real.sqrt (t.rad : ℝ) :=
  qle_iff s.num s.rad t.num t.rad s.rad_pos t.rad_pos

theorem scoreLe_total (s t : Score) : scoreLe s t = true ∨ scoreLe t s = true := by
  rcases le_total ((s.num : ℝ) / Real.sqrt (s.rad : ℝ))
      ((t.num : ℝ) / Real.sqrt (t.rad : ℝ)) with h | h
  · exact Or.inl ((scoreLe_iff s t).mpr h)
  · exact Or.inr ((scoreLe_iff t s).mpr h)

theorem scoreLe_trans (s t u : Score) (h1 : scoreLe s t = true)
    (h2 : scoreLe t u = true) : scoreLe s u = true :=
  (scoreLe_iff s u).mpr (le_trans ((scoreLe_iff s t).mp h1) ((scoreLe_iff t u).mp h2))

theorem scoreLe_refl (s : Score) : scoreLe s s = true :=
  (scoreLe_iff s s).mpr le_rfl

/-! ## The ranking order is total and transitive -/

theorem rank_eq_true_iff (x y : Nat × Score) :
    rank x y = true ↔
      (scoreLe y.2 x.2 = true ∧ (scoreLe x.2 y.2 = true → x.1 ≤ y.1)) := by
  unfold rank
  cases h2 : scoreLe x.2 y.2 <;> simp [h2]

theorem rank_total (x y : Nat × Score) : (rank x y || rank y x) = true := by
  rw [Bool.or_eq_true, rank_eq_true_iff, rank_eq_true_iff]
  cases hxy : scoreLe x.2 y.2 with
  | false =>
    rcases scoreLe_total x.2 y.2 with h | h
    · rw [hxy] at h
      cases h
    · exact Or.inl ⟨h, fun hc => by cases hc⟩
  | true =>
    cases hyx : scoreLe y.2 x.2 with
    | false => exact Or.inr ⟨rfl, fun hc => by cases hc⟩
    | true =>
      rcases Nat.le_total x.1 y.1 with h3 | h3
      · exact Or.inl ⟨rfl, fun _ => h3⟩
      · exact Or.inr ⟨rfl, fun _ => h3⟩

theorem rank_trans (x y z : Nat × Score) (h1 : rank x y = true)
    (h2 : rank y z = true) : rank x z = true := by
  rw [rank_eq_true_iff] at h1 h2 ⊢
  obtain ⟨hyx, hxy⟩ := h1
  obtain ⟨hzy, hyz⟩ := h2
  refine ⟨scoreLe_trans _ _ _ hzy hyx, fun hxz => ?_⟩
  have hxy' : scoreLe x.2 y.2 = true := scoreLe_trans _ _ _ hxz hzy
  have hyz' : scoreLe y.2 z.2 = true := scoreLe_trans _ _ _ hyx hxz
  exact le_trans (hxy hxy') (hyz hyz')

/-! ## Structure of the search results -/

theorem length_scoredList (idx : FAISSIndex) (q : List ℚ) :
    (scoredList idx q).length = idx.vectors.length := by
  simp [scoredList]

theorem mem_scoredList_iff (idx : FAISSIndex) (q : List ℚ) (x : Nat × Score) :
    x ∈ scoredList idx q ↔
      ∃ j, j < idx.vectors.length ∧ x = (j, cosSim q (idx.vectors.getD j [])) := by
  simp only [scoredList, List.mem_map, List.mem_range]
  constructor
  · rintro ⟨j, hj, rfl⟩
    exact ⟨j, hj, rfl⟩
  · rintro ⟨j, hj, rfl⟩
    exact ⟨j, hj, rfl⟩

theorem rank_of_not_rank (x y : Nat × Score) (h : rank y x = false) : rank x y = true := by
  have htot := rank_total y x
  rw [Bool.or_eq_true] at htot
  rcases htot with h1 | h1
  · rw [h] at h1
    cases h1
  · exact h1

theorem perm_insertRanked (x : Nat × Score) (l : List (Nat × Score)) :
    (insertRanked x l).Perm (x :: l) := by
  induction l with
  | nil => exact List.Perm.refl _
  | cons y ys ih =>
    unfold insertRanked
    by_cases h : rank y x = true
    · rw [if_pos h]
      exact (ih.cons y).trans (List.Perm.swap x y ys)
    · rw [if_neg h]

theorem perm_sortRanked (l : List (Nat × Score)) : (sortRanked l).Perm l := by
  induction l with
  | nil => exact List.Perm.refl _
  | cons x xs ih => exact (perm_insertRanked x (sortRanked xs)).trans (ih.cons x)

theorem mem_insertRanked (z x : Nat × Score) (l : List (Nat × Score)) :
    z ∈ insertRanked x l ↔ z = x ∨ z ∈ l := by
  rw [(perm_insertRanked x l).mem_iff, List.mem_cons]

theorem pairwise_insertRanked (x : Nat × Score) (l : List (Nat × Score))
    (h : l.Pairwise (fun a b => rank a b = true)) :
    (insertRanked x l).Pairwise (fun a b => rank a b = true) := by
  induction l with
  | nil => simp [insertRanked]
  | cons y ys ih =>
    rw [List.pairwise_cons] at h
    obtain ⟨hy, hys⟩ := h
    unfold insertRanked
    by_cases hyx : rank y x = true
    · rw [if_pos hyx, List.pairwise_cons]
      refine ⟨?_, ih hys⟩
      intro z hz
      rcases (mem_insertRanked z x ys).mp hz with rfl | hz'
      · exact hyx
      · exact hy z hz'
    · rw [if_neg hyx, List.pairwise_cons]
      have hxy : rank x y = true := rank_of_not_rank x y (Bool.eq_false_iff.mpr hyx)
      refine ⟨?_, List.pairwise_cons.mpr ⟨hy, hys⟩⟩
      intro z hz
      rcases List.mem_cons.mp hz with rfl | hz'
      · exact hxy
      · exact rank_trans x y z hxy (hy z hz')

theorem pairwise_sortRanked (l : List (Nat × Score)) :
    (sortRanked l).Pairwise (fun a b => rank a b = true) := by
  induction l with
  | nil => exact List.Pairwise.nil
  | cons x xs ih => exact pairwise_insertRanked x (sortRanked xs) ih

theorem fst_nodup_sortRanked (idx : FAISSIndex) (q : List ℚ) :
    (sortRanked (scoredList idx q)).Pairwise (fun a b => a.1 ≠ b.1) := by
  have hperm := perm_sortRanked (scoredList idx q)
  have hmap := hperm.map Prod.fst
  have hrange : (scoredList idx q).map Prod.fst = List.range idx.vectors.length := by
    unfold scoredList
    rw [List.map_map]
    exact List.map_id _
  rw [hrange] at hmap
  have hnd : ((sortRanked (scoredList idx q)).map Prod.fst).Nodup :=
    hmap.nodup_iff.mpr (List.nodup_range _)
  exact List.pairwise_map.mp hnd

theorem pairwise_searchRanked (idx : FAISSIndex) (q : List ℚ) (k : Nat) :
    (searchRanked idx q k).Pairwise
      (fun a b => scoreLe b.2 a.2 = true ∧ (scoreLe a.2 b.2 = true → a.1 < b.1)) := by
  have hcomb := (pairwise_sortRanked (scoredList idx q)).and (fst_nodup_sortRanked idx q)
  unfold searchRanked
  have htake := List.Pairwise.sublist
    (List.take_sublist (min k idx.vectors.length) (sortRanked (scoredList idx q))) hcomb
  refine htake.imp ?_
  rintro a b ⟨hr, hne⟩
  rw [rank_eq_true_iff] at hr
  exact ⟨hr.1, fun htie => Nat.lt_of_le_of_ne (hr.2 htie) hne⟩

theorem length_searchRanked (idx : FAISSIndex) (q : List ℚ) (k : Nat) :
    (searchRanked idx q k).length = min k idx.vectors.length := by
  unfold searchRanked
  rw [List.length_take, (perm_sortRanked (scoredList idx q)).length_eq, length_scoredList]
  rw [min_assoc, min_self]

/-! ## Claim theorems -/

/-- Claim C1: on an index with `n` stored vectors, `search` returns exactly
`min k n` documents and `min k n` scores, the scores are non-increasing,
ties are broken by the smaller insertion index, and an empty index gives the
empty result rather than an error. -/
theorem search_returns_topk (idx : FAISSIndex) (q : List ℚ) (k : Nat) :
    (idx.search q k).1.length = min k idx.vectors.length ∧
    (idx.search q k).2.length = min k idx.vectors.length ∧
    (idx.search q k).2.Pairwise (fun s t => scoreLe t s = true) ∧
    (searchRanked idx q k).Pairwise
      (fun a b => scoreLe b.2 a.2 = true ∧ (scoreLe a.2 b.2 = true → a.1 < b.1)) ∧
    (idx.vectors.length = 0 → idx.search q k = ([], [])) := by
  by_cases h : idx.vectors.length = 0
  · refine ⟨?_, ?_, ?_, ?_, fun _ => by simp [FAISSIndex.search, h]⟩
    · simp [FAISSIndex.search, h]
    · simp [FAISSIndex.search, h]
    · simp [FAISSIndex.search, h]
    · exact pairwise_searchRanked idx q k
  · have hsnd : (idx.search q k).2 = (searchRanked idx q k).map (fun p => p.2) := by
      simp [FAISSIndex.search, h]
    refine ⟨?_, ?_, ?_, pairwise_searchRanked idx q k, fun h0 => absurd h0 h⟩
    · simp [FAISSIndex.search, h, length_searchRanked]
    · simp [FAISSIndex.search, h, length_searchRanked]
    · rw [hsnd]
      refine List.pairwise_map.mpr ((pairwise_searchRanked idx q k).imp ?_)
      rintro a b ⟨h1, -⟩
      exact h1

/-- Claim C7: every reachable index state has equally many documents and
vectors; a successful `add_documents` appends equal numbers of documents and
embeddings to the two stores (and is the only state-changing operation —
`search` is a pure function of the state in this model). -/
theorem index_invariant (idx : FAISSIndex) (h : Reachable idx) :
    idx.documents.length = idx.vectors.length ∧
    (∀ docs embs idx', idx.add_documents docs embs = Except.ok idx' →
      idx'.documents = idx.documents ++ docs ∧ idx'.vectors = idx.vectors ++ embs ∧
      docs.length = embs.length) := by
  have step : ∀ (i : FAISSIndex) docs embs i',
      FAISSIndex.add_documents i docs embs = Except.ok i' →
      i'.documents = i.documents ++ docs ∧ i'.vectors = i.vectors ++ embs ∧
      docs.length = embs.length := by
    intro i docs embs i' hok
    unfold FAISSIndex.add_documents at hok
    by_cases hlen : docs.length ≠ embs.length
    · rw [if_pos hlen] at hok
      cases hok
    · rw [if_neg hlen] at hok
      cases hok
      exact ⟨rfl, rfl, not_ne_iff.mp hlen⟩
  refine ⟨?_, step idx⟩
  induction h with
  | init d => rfl
  | add i docs embs i' _ hok ih =>
    obtain ⟨hd, hv, hl⟩ := step i docs embs i' hok
    rw [hd, hv, List.length_append, List.length_append, ih, hl]

/-- Claim C7 witness: a concrete reachable state (one insertion into a fresh
index) satisfying the invariant. -/
theorem index_invariant_witness :
    Reachable (FAISSIndex.mk 1 ["a"] [[1]]) ∧
    ((FAISSIndex.mk 1 ["a"] [[1]]).documents.length =
        (FAISSIndex.mk 1 ["a"] [[1]]).vectors.length ∧
      (∀ docs embs idx', (FAISSIndex.mk 1 ["a"] [[1]]).add_documents docs embs = Except.ok idx' →
        idx'.documents = (FAISSIndex.mk 1 ["a"] [[1]]).documents ++ docs ∧
        idx'.vectors = (FAISSIndex.mk 1 ["a"] [[1]]).vectors ++ embs ∧
        docs.length = embs.length)) := by
  have hreach : Reachable (FAISSIndex.mk 1 ["a"] [[1]]) :=
    Reachable.add (FAISSIndex.init 1) ["a"] [[1]] _ (Reachable.init 1) rfl
  exact ⟨hreach, index_invariant _ hreach⟩

/-- Claim C8: `add_documents` with different document and embedding counts
fails with the dimension-mismatch error (no state is produced). -/
theorem add_documents_mismatch (idx : FAISSIndex) (docs : List String)
    (embs : List (List ℚ)) (h : docs.length ≠ embs.length) :
    idx.add_documents docs embs = Except.error PipelineError.dimensionMismatch := by
  unfold FAISSIndex.add_documents
  rw [if_pos h]

/-- Claim C8 witness: one document, zero embeddings. -/
theorem add_documents_mismatch_witness :
    (["a"].length ≠ ([] : List (List ℚ)).length) ∧
    (FAISSIndex.init 1).add_documents ["a"] [] =
      Except.error PipelineError.dimensionMismatch :=
  ⟨by decide, add_documents_mismatch _ _ _ (by decide)⟩

/-- Claim C2 counterexample: `index_documents []` does not fail — it returns
successfully and raises the `_is_indexed` flag. -/
theorem index_documents_empty_cex :
    RAGPipeline.index_documents (RAGPipeline.init (fun _ => ([1] : List ℚ)) 1) [] =
      Except.ok (RAGPipeline.mk (fun _ => ([1] : List ℚ)) (FAISSIndex.mk 1 [] []) true) :=
  rfl

/-- Claim C2 (amended): `index_documents` on the empty list succeeds, indexes
nothing, and marks the pipeline as indexed; the empty-corpus rejection lives
only in the file-loading path. -/
theorem index_documents_empty_ok (p : RAGPipeline) :
    p.index_documents [] = Except.ok { p with is_indexed := true } := by
  unfold RAGPipeline.index_documents FAISSIndex.add_documents
  simp

/-- Claim C3: the confidence label is a pure step function of the top score
with thresholds 0.7 and 0.5; scores 0.9, 0.6, 0.3 map to high, moderate, low;
and the synthesized answer embeds exactly this label for the top score. -/
theorem confidence_step_function :
    (∀ s : ℚ, 7/10 < s → confidence s = "high confidence") ∧
    (∀ s : ℚ, 1/2 < s → s ≤ 7/10 → confidence s = "moderate confidence") ∧
    (∀ s : ℚ, s ≤ 1/2 → confidence s = "low confidence") ∧
    confidence (9/10) = "high confidence" ∧
    confidence (6/10) = "moderate confidence" ∧
    confidence (3/10) = "low confidence" ∧
    (∀ (q d0 : String) (rest : List String) (s0 : ℚ) (ss : List ℚ),
      RAGPipeline.generate_answer q (d0 :: rest) (s0 :: ss) =
        some ("Based on retrieved data (" ++ confidence s0 ++ "):\n" ++ d0 ++
          relatedInfo rest)) := by
  refine ⟨?_, ?_, ?_, by norm_num [confidence], by norm_num [confidence],
    by norm_num [confidence], fun q d0 rest s0 ss => rfl⟩
  · intro s hs
    simp [confidence, hs]
  · intro s h1 h2
    rw [confidence, if_neg (by exact not_lt.mpr h2), if_pos h1]
  · intro s h
    rw [confidence, if_neg (by exact not_lt.mpr (le_trans h (by norm_num))),
      if_neg (by exact not_lt.mpr h)]

/-- Claim C4: on an empty document list the synthesizer returns the fixed
no-information message; on a ranked (parallel) input it returns exactly the
confidence preamble, the full top document, and — only when a second document
exists — a related-info section holding its first 200 characters. -/
theorem generate_answer_template (q : String) (docs : List String) (scores : List ℚ)
    (h : docs.length = scores.length) :
    (docs = [] → RAGPipeline.generate_answer q docs scores =
      some "No relevant information found.") ∧
    (∀ d0 rest, docs = d0 :: rest →
      RAGPipeline.generate_answer q docs scores =
        some ("Based on retrieved data (" ++ confidence (scores.headD 0) ++ "):\n" ++
          d0 ++ relatedInfo rest)) ∧
    (∀ d1 rest2, relatedInfo (d1 :: rest2) = "\n\nRelated info:\n" ++ strTake d1 200) ∧
    relatedInfo [] = "" ∧
    (∀ s2 : String, (strTake s2 200).data.length ≤ 200) := by
  refine ⟨?_, ?_, fun d1 rest2 => rfl, rfl, ?_⟩
  · rintro rfl
    rfl
  · rintro d0 rest rfl
    cases scores with
    | nil => simp at h
    | cons s0 ss => rfl
  · intro s2
    show (s2.data.take 200).length ≤ 200
    rw [List.length_take]
    exact min_le_left _ _

/-- Claim C4 witness: a two-document ranked input. -/
theorem generate_answer_template_witness :
    (["doc one", "doc two"].length = [(9:ℚ)/10, 1/2].length) ∧
    ((["doc one", "doc two"] = ([] : List String) →
      RAGPipeline.generate_answer "query" ["doc one", "doc two"] [(9:ℚ)/10, 1/2] =
        some "No relevant information found.") ∧
    (∀ d0 rest, ["doc one", "doc two"] = d0 :: rest →
      RAGPipeline.generate_answer "query" ["doc one", "doc two"] [(9:ℚ)/10, 1/2] =
        some ("Based on retrieved data (" ++ confidence ([(9:ℚ)/10, 1/2].headD 0) ++ "):\n" ++
          d0 ++ relatedInfo rest)) ∧
    (∀ d1 rest2, relatedInfo (d1 :: rest2) = "\n\nRelated info:\n" ++ strTake d1 200) ∧
    relatedInfo [] = "" ∧
    (∀ s2 : String, (strTake s2 200).data.length ≤ 200)) :=
  ⟨rfl, generate_answer_template "query" ["doc one", "doc two"] [(9:ℚ)/10, 1/2] rfl⟩

/-- Claim C5: before any indexing (fresh pipeline, flag down), `retrieve`
returns the empty result `([], [])` without error and `is_ready` is false. -/
theorem retrieve_before_indexing (e : String → List ℚ) (d : Nat) (q : String) (k : Nat) :
    (RAGPipeline.init e d).retrieve q k = ([], []) ∧
    (RAGPipeline.init e d).is_ready = false :=
  ⟨rfl, rfl⟩

/-- Helper: indexing any corpus on a fresh pipeline succeeds and yields the
corpus with its batch-encoded embeddings, flag up. -/
theorem index_documents_on_init (e : String → List ℚ) (d : Nat) (docs : List String) :
    (RAGPipeline.init e d).index_documents docs =
      Except.ok (RAGPipeline.mk e (FAISSIndex.mk d docs (docs.map e)) true) := by
  have hadd : (FAISSIndex.init d).add_documents docs (docs.map e) =
      Except.ok (FAISSIndex.mk d docs (docs.map e)) := by
    unfold FAISSIndex.add_documents
    rw [if_neg (by simp)]
    rfl
  unfold RAGPipeline.index_documents
  rw [show (RAGPipeline.init e d).index = FAISSIndex.init d from rfl,
    show (RAGPipeline.init e d).encode = e from rfl, hadd]

/-- Claim C6: `is_ready` is true iff the pipeline is indexed and the index
holds at least one vector; for a non-empty corpus it is false on the fresh
pipeline and true after `index_documents`. -/
theorem is_ready_spec (p : RAGPipeline) (e : String → List ℚ) (d : Nat)
    (docs : List String) (h : docs ≠ []) :
    (p.is_ready = true ↔ (p.is_indexed = true ∧ 0 < p.index.vectors.length)) ∧
    (RAGPipeline.init e d).is_ready = false ∧
    (RAGPipeline.init e d).index_documents docs =
      Except.ok (RAGPipeline.mk e (FAISSIndex.mk d docs (docs.map e)) true) ∧
    (RAGPipeline.mk e (FAISSIndex.mk d docs (docs.map e)) true).is_ready = true := by
  refine ⟨?_, rfl, index_documents_on_init e d docs, ?_⟩
  · simp [RAGPipeline.is_ready]
  · simp [RAGPipeline.is_ready, List.length_pos.mpr h]

/-- Claim C6 witness: the singleton corpus `["a"]`. -/
theorem is_ready_spec_witness :
    ((["a"] : List String) ≠ []) ∧
    (((RAGPipeline.init (fun _ => ([1] : List ℚ)) 1).is_ready = true ↔
        ((RAGPipeline.init (fun _ => ([1] : List ℚ)) 1).is_indexed = true ∧
          0 < (RAGPipeline.init (fun _ => ([1] : List ℚ)) 1).index.vectors.length)) ∧
      (RAGPipeline.init (fun _ => ([1] : List ℚ)) 1).is_ready = false ∧
      (RAGPipeline.init (fun _ => ([1] : List ℚ)) 1).index_documents ["a"] =
        Except.ok (RAGPipeline.mk (fun _ => ([1] : List ℚ))
          (FAISSIndex.mk 1 ["a"] (["a"].map (fun _ => ([1] : List ℚ)))) true) ∧
      (RAGPipeline.mk (fun _ => ([1] : List ℚ))
        (FAISSIndex.mk 1 ["a"] (["a"].map (fun _ => ([1] : List ℚ)))) true).is_ready = true) :=
  ⟨by decide, is_ready_spec _ _ _ _ (by decide)⟩

/-! ## Self-similarity and the top-1 result -/

theorem cosSim_self_eq (v : List ℚ) (hv : 0 < normSq v) :
    cosSim v v = ⟨normSq v, normSq v * normSq v, mul_pos hv hv⟩ := by
  unfold cosSim
  rw [dif_pos (mul_pos hv hv)]
  rfl

theorem cosSim_pos_eq (v w : List ℚ) (hw : 0 < normSq v * normSq w) :
    cosSim v w = ⟨dot v w, normSq v * normSq w, hw⟩ := by
  unfold cosSim
  rw [dif_pos hw]

theorem cosSim_degenerate_eq (v w : List ℚ) (hw : ¬ 0 < normSq v * normSq w) :
    cosSim v w = ⟨0, 1, one_pos⟩ := by
  unfold cosSim
  rw [dif_neg hw]

/-- By Cauchy–Schwarz, no stored vector scores above the query itself:
`cosSim v w ≤ cosSim v v` for every `w`. -/
theorem cs_scoreLe_self (v w : List ℚ) (hv : 0 < normSq v) :
    scoreLe (cosSim v w) (cosSim v v) = true := by
  rw [cosSim_self_eq v hv]
  by_cases hw : 0 < normSq v * normSq w
  · rw [cosSim_pos_eq v w hw]
    show qle (dot v w) (normSq v * normSq w) (normSq v) (normSq v * normSq v) = true
    unfold qle
    by_cases hd : dot v w ≤ 0
    · rw [if_pos hd]
      simp only [Bool.or_eq_true, decide_eq_true_eq]
      exact Or.inl hv.le
    · rw [if_neg hd]
      simp only [Bool.and_eq_true, decide_eq_true_eq]
      exact ⟨hv.le, by nlinarith [dot_sq_le v w, mul_nonneg hv.le hv.le]⟩
  · rw [cosSim_degenerate_eq v w hw]
    show qle 0 1 (normSq v) (normSq v * normSq v) = true
    unfold qle
    rw [if_pos (le_refl (0:ℚ))]
    simp only [Bool.or_eq_true, decide_eq_true_eq]
    exact Or.inl hv.le

/-- A stored vector can tie with the query's self-similarity only when its
cosine similarity to the query is exactly 1. -/
theorem tie_implies_cosOne (v w : List ℚ) (hv : 0 < normSq v)
    (h : scoreLe (cosSim v v) (cosSim v w) = true) : cosOne v w := by
  rw [cosSim_self_eq v hv] at h
  by_cases hw : 0 < normSq v * normSq w
  · rw [cosSim_pos_eq v w hw] at h
    have h' : qle (normSq v) (normSq v * normSq v) (dot v w) (normSq v * normSq w) = true := h
    unfold qle at h'
    rw [if_neg (not_le.mpr hv)] at h'
    simp only [Bool.and_eq_true, decide_eq_true_eq] at h'
    obtain ⟨hd0, hineq⟩ := h'
    have hcs := dot_sq_le v w
    have hN2 : 0 < normSq v * normSq v := mul_pos hv hv
    have hNW : normSq v * normSq w ≤ (dot v w) ^ 2 := by
      have hkey : (normSq v * normSq v) * (normSq v * normSq w) ≤
          (normSq v * normSq v) * ((dot v w) ^ 2) := by nlinarith [hineq]
      exact le_of_mul_le_mul_left hkey hN2
    have heq : (dot v w) ^ 2 = normSq v * normSq w := le_antisymm hcs hNW
    have hW : 0 < normSq w := by nlinarith [hw, hv]
    have hD : 0 < dot v w := by
      rcases lt_or_eq_of_le hd0 with hlt | hzero
      · exact hlt
      · exfalso
        rw [← hzero] at heq
        nlinarith [mul_pos hv hW, heq]
    exact ⟨hD, heq⟩
  · rw [cosSim_degenerate_eq v w hw] at h
    have h' : qle (normSq v) (normSq v * normSq v) 0 1 = true := h
    unfold qle at h'
    rw [if_neg (not_le.mpr hv)] at h'
    simp only [Bool.and_eq_true, decide_eq_true_eq] at h'
    obtain ⟨-, hineq⟩ := h'
    exfalso
    nlinarith [hineq, hv]

theorem rank_refl (x : Nat × Score) : rank x x = true := by
  rw [rank_eq_true_iff]
  exact ⟨scoreLe_refl _, fun _ => le_refl _⟩

/-- In a `rank`-sorted list, an element that ranks before every element of
the list and is determined by its insertion index is the head. -/
theorem head_of_sorted_max (l : List (Nat × Score)) (x : Nat × Score)
    (hpw : l.Pairwise (fun a b => rank a b = true))
    (hx : x ∈ l) (hmax : ∀ y ∈ l, rank x y = true)
    (hdet : ∀ y ∈ l, y.1 = x.1 → y = x) :
    l.head? = some x := by
  cases l with
  | nil => cases hx
  | cons h t =>
    rw [List.head?_cons]
    rcases List.mem_cons.mp hx with rfl | hxt
    · rfl
    · rw [List.pairwise_cons] at hpw
      have hhx : rank h x = true := hpw.1 x hxt
      have hxh : rank x h = true := hmax h (List.mem_cons_self h t)
      rw [rank_eq_true_iff] at hhx hxh
      have h1 : h.1 ≤ x.1 := hhx.2 hxh.1
      have h2 : x.1 ≤ h.1 := hxh.2 hhx.1
      rw [hdet h (List.mem_cons_self h t) (le_antisymm h1 h2)]

/-- Claim C9 counterexample to the unqualified round-trip property: with
documents "first" and "second" embedded at the parallel vectors `[1]` and
`[2]`, querying with the embedding of `document[1]` ("second") returns
"first" as the top-1 result (the tie at cosine similarity 1 is broken by
insertion order), not `document[1]`. -/
theorem search_self_cex :
    (FAISSIndex.search ⟨1, ["first", "second"], [[1], [2]]⟩ [2] 1).1 = ["first"] ∧
    "first" ≠ "second" :=
  ⟨by with_unfolding_all decide, by decide⟩

/-- Claim C9 (amended): if `document[i]`'s embedding `v` is nonzero and no
earlier-inserted document has cosine similarity exactly 1 to `v`, then
searching with `v` (any `k ≥ 1`) returns `document[i]` as the top-1 result,
with a score equal to 1: its exact representation `(num, rad)` satisfies
`0 < num` and `num ^ 2 = rad`, i.e. `num / sqrt rad = 1`. -/
theorem search_self_top (idx : FAISSIndex) (i k : Nat) (v : List ℚ)
    (hi : i < idx.vectors.length)
    (hv : idx.vectors.getD i [] = v)
    (hnz : 0 < normSq v)
    (hpar : ∀ j, j < i → ¬ cosOne v (idx.vectors.getD j []))
    (hk : 0 < k) :
    (searchRanked idx v k).head? = some (i, cosSim v v) ∧
    (idx.search v k).1.head? = some (idx.documents.getD i "") ∧
    (∃ s : Score, (idx.search v k).2.head? = some s ∧ 0 < s.num ∧ s.num ^ 2 = s.rad) := by
  have hn : 0 < idx.vectors.length := lt_of_le_of_lt (Nat.zero_le i) hi
  have hx_mem_scored : (i, cosSim v v) ∈ scoredList idx v :=
    (mem_scoredList_iff idx v _).mpr ⟨i, hi, by rw [hv]⟩
  have hperm := perm_sortRanked (scoredList idx v)
  have hx_mem : (i, cosSim v v) ∈ sortRanked (scoredList idx v) :=
    hperm.mem_iff.mpr hx_mem_scored
  have hmax : ∀ y ∈ sortRanked (scoredList idx v), rank (i, cosSim v v) y = true := by
    intro y hy
    obtain ⟨j, hj, rfl⟩ := (mem_scoredList_iff idx v y).mp (hperm.mem_iff.mp hy)
    rw [rank_eq_true_iff]
    refine ⟨cs_scoreLe_self v (idx.vectors.getD j []) hnz, fun htie => ?_⟩
    by_contra hij
    have hji : j < i := Nat.lt_of_not_le (fun hc => hij hc)
    exact hpar j hji (tie_implies_cosOne v (idx.vectors.getD j []) hnz htie)
  have hdet : ∀ y ∈ sortRanked (scoredList idx v), y.1 = (i, cosSim v v).1 →
      y = (i, cosSim v v) := by
    intro y hy h1
    obtain ⟨j, hj, rfl⟩ := (mem_scoredList_iff idx v y).mp (hperm.mem_iff.mp hy)
    have : j = i := h1
    subst this
    rw [hv]
  have hhead : (sortRanked (scoredList idx v)).head? = some (i, cosSim v v) :=
    head_of_sorted_max _ _ (pairwise_sortRanked _) hx_mem hmax hdet
  have hmin : 0 < min k idx.vectors.length := lt_min_iff.mpr ⟨hk, hn⟩
  have hsr : (searchRanked idx v k).head? = some (i, cosSim v v) := by
    unfold searchRanked
    rw [List.head?_take, if_neg (Nat.pos_iff_ne_zero.mp hmin), hhead]
  have hne : ¬(idx.vectors.length = 0) := Nat.pos_iff_ne_zero.mp hn
  refine ⟨hsr, ?_, ?_⟩
  · unfold FAISSIndex.search
    rw [if_neg hne]
    show ((searchRanked idx v k).map (fun p => idx.documents.getD p.1 "")).head? =
      some (idx.documents.getD i "")
    rw [List.head?_map, hsr]
    rfl
  · refine ⟨cosSim v v, ?_, ?_, ?_⟩
    · unfold FAISSIndex.search
      rw [if_neg hne]
      show ((searchRanked idx v k).map (fun p => p.2)).head? = some (cosSim v v)
      rw [List.head?_map, hsr]
      rfl
    · rw [cosSim_self_eq v hnz]
      exact hnz
    · rw [cosSim_self_eq v hnz]
      exact pow_two (normSq v)

/-- Claim C9 witness: two orthogonal unit vectors; querying with the second
document's embedding returns it as top-1 with score exactly 1. -/
theorem search_self_top_witness :
    ((1 < (FAISSIndex.mk 2 ["a", "b"] [[1, 0], [0, 1]]).vectors.length) ∧
     (FAISSIndex.mk 2 ["a", "b"] [[1, 0], [0, 1]]).vectors.getD 1 [] = [0, 1] ∧
     (0 < normSq [0, 1]) ∧
     (∀ j, j < 1 → ¬ cosOne [0, 1]
        ((FAISSIndex.mk 2 ["a", "b"] [[1, 0], [0, 1]]).vectors.getD j [])) ∧
     (0 < 3)) ∧
    ((searchRanked (FAISSIndex.mk 2 ["a", "b"] [[1, 0], [0, 1]]) [0, 1] 3).head? =
        some (1, cosSim [0, 1] [0, 1]) ∧
     ((FAISSIndex.mk 2 ["a", "b"] [[1, 0], [0, 1]]).search [0, 1] 3).1.head? =
        some ((FAISSIndex.mk 2 ["a", "b"] [[1, 0], [0, 1]]).documents.getD 1 "") ∧
     (∃ s : Score, ((FAISSIndex.mk 2 ["a", "b"] [[1, 0], [0, 1]]).search [0, 1] 3).2.head? =
        some s ∧ 0 < s.num ∧ s.num ^ 2 = s.rad)) :=
  ⟨⟨by decide, by with_unfolding_all decide, by with_unfolding_all decide,
      by with_unfolding_all decide, by decide⟩,
    search_self_top (FAISSIndex.mk 2 ["a", "b"] [[1, 0], [0, 1]]) 1 3 [0, 1]
      (by decide) (by with_unfolding_all decide) (by with_unfolding_all decide)
      (by with_unfolding_all decide) (by decide)⟩

/-- Claim C10: the synthesized answer does not depend on the query text. -/
theorem generate_answer_query_independent (q1 q2 : String) (docs : List String)
    (scores : List ℚ) :
    RAGPipeline.generate_answer q1 docs scores =
      RAGPipeline.generate_answer q2 docs scores := by
  cases docs <;> cases scores <;> rfl
